import Mathlib

/-!
Verification of a first-order supervised HMM tagger (`hmm.py`).

The Python class `HMM` is embedded shallowly:
* Python `dict`s become insertion-ordered association lists (`alookup`,
  `aset`, `aincr` mirror `d[k]`, `d[k] = v` and the
  `if k not in d: d[k] = 0; d[k] += 1` idiom, including the fact that an
  update of an existing key keeps its position while a fresh key is
  appended at the end);
* Python floats become exact rationals `ℚ`;
* raised exceptions (`Exception`, `KeyError`, `IndexError`, `ValueError`)
  become an `Except Err` result, with one `Err` constructor per distinct
  failure site.
-/

namespace HMMSpec

attribute [local semireducible] Rat.mul Rat.inv Rat.add Rat.sub

variable {α : Type} {β : Type} {γ : Type}

/-- Lookup in an association list: Python `d.get(k)` / `k in d`. -/
def alookup [DecidableEq α] : List (α × β) → α → Option β
  | [], _ => none
  | (k', v) :: rest, k => if k = k' then some v else alookup rest k

/-- Python `d[k] = v`: replace in place when the key exists, append otherwise. -/
def aset [DecidableEq α] : List (α × β) → α → β → List (α × β)
  | [], k, v => [(k, v)]
  | (k', v') :: rest, k, v =>
    if k' = k then (k', v) :: rest else (k', v') :: aset rest k v

/-- Python `if k not in d: d[k] = 0` followed by `d[k] += 1`. -/
def aincr [DecidableEq α] : List (α × Nat) → α → List (α × Nat)
  | [], k => [(k, 1)]
  | (k', v) :: rest, k =>
    if k' = k then (k', v + 1) :: rest else (k', v) :: aincr rest k

/-- Two-level lookup, for stating facts about the nested probability tables. -/
def lookup2 [DecidableEq α] (t : List (α × List (α × β))) (s w : α) : Option β :=
  match alookup t s with
  | none => none
  | some inner => alookup inner w

/-- Sum of the values of a count dictionary: Python `sum(d.values())`. -/
def sumVals (l : List (α × Nat)) : Nat := (l.map (·.2)).sum

/-- The distinct run-time failures of `hmm.py`, one constructor per raise site
(plus the `KeyError` / `IndexError` / `ValueError` the interpreter raises). -/
inductive Err where
  | invalidIteration (iteration : ℤ)
  | invalidState (state : String)
  | invalidDataState (state : String)
  | invalidStart (state : String)
  | invalidStop (state : String)
  | indexError
  | keyError (key : String)
  | keyErrorNat (key : Nat)
  | valueError
  | emptyEmission
  deriving DecidableEq

instance {ε σ : Type} [DecidableEq ε] [DecidableEq σ] : DecidableEq (Except ε σ)
  | .error a, .error b =>
    if h : a = b then .isTrue (by rw [h]) else .isFalse (by intro hc; cases hc; exact h rfl)
  | .error _, .ok _ => .isFalse (by intro hc; cases hc)
  | .ok _, .error _ => .isFalse (by intro hc; cases hc)
  | .ok a, .ok b =>
    if h : a = b then .isTrue (by rw [h]) else .isFalse (by intro hc; cases hc; exact h rfl)

/-- A (word, state) pair, as stored in the deques of `hmm.py`. -/
abbrev WSPair := String × String

/-- A sequence: a list of (word, state) pairs. -/
abbrev Seq := List WSPair

/-- `HMM.UNKNOWN_TOKEN`. -/
def UNKNOWN_TOKEN : String := "#UNK#"

/-- The `HMM` object: `end_states` is split into its two elements
`start`/`stop`; the remaining fields mirror the instance attributes. -/
structure HMM where
  start : String
  stop : String
  states : List String
  emission_probs : List (String × List (String × ℚ))
  transition_probs : List (String × List (String × ℚ))
  training_words : List (String × Nat)
  transition_cnts : List (String × List (String × Nat))
  deriving DecidableEq

/-- `HMM.__init__`: `end_states = states[0:2]`, `states = states[2:]`,
every table empty. -/
def HMM.init (allStates : List String) : HMM :=
  HMM.mk (allStates.getD 0 "") (allStates.getD 1 "") (allStates.drop 2) [] [] [] []

/-- `HMM._check_end_states`: the first pair's state must be START and the last
pair's state must be STOP; indexing an empty deque is an `IndexError`. -/
def check_end_states (start stop : String) (seq : Seq) : Except Err Unit :=
  match seq.head? with
  | none => .error .indexError
  | some first =>
    if first.2 ≠ start then .error (.invalidStart first.2)
    else
      match seq.getLast? with
      | none => .error .indexError
      | some last =>
        if last.2 ≠ stop then .error (.invalidStop last.2) else .ok ()

/-- `HMM._calculate_emission_mle`. -/
def calculate_emission_mle (word_count state_count smooth_k : ℚ) : ℚ :=
  word_count / (state_count + smooth_k)

/-- `HMM._calculate_transition_mle`. -/
def calculate_transition_mle (next_state_cnt state_cnt : Nat) : ℚ :=
  (next_state_cnt : ℚ) / (state_cnt : ℚ)

/-- `for state in ks: d[state] = {}`. -/
def initCounts (ks : List String) : List (String × List (String × Nat)) :=
  ks.foldl (fun acc s => aset acc s []) []

/-- The inner loop of `HMM.estimate_emission` over the pairs of one sequence:
skip the end states, reject a state outside `self.states`, count the word in
`training_words` and in `state_emission_cnts[state]`. -/
def emitPairs (start stop : String) (states : List String) :
    List (String × Nat) → List (String × List (String × Nat)) → List WSPair →
    Except Err (List (String × Nat) × List (String × List (String × Nat)))
  | tw, cnts, [] => .ok (tw, cnts)
  | tw, cnts, (word, state) :: rest =>
    if state = start ∨ state = stop then emitPairs start stop states tw cnts rest
    else if state ∈ states then
      match alookup cnts state with
      | some inner =>
        emitPairs start stop states (aincr tw word) (aset cnts state (aincr inner word)) rest
      | none => .error (.keyError state)
    else .error (.invalidDataState state)

/-- The outer loop of `HMM.estimate_emission`: check the end states of each
sequence, then count its pairs. -/
def emitSeqs (start stop : String) (states : List String) :
    List (String × Nat) → List (String × List (String × Nat)) → List Seq →
    Except Err (List (String × Nat) × List (String × List (String × Nat)))
  | tw, cnts, [] => .ok (tw, cnts)
  | tw, cnts, seq :: rest =>
    match check_end_states start stop seq with
    | .error e => .error e
    | .ok _ =>
      match emitPairs start stop states tw cnts seq with
      | .error e => .error e
      | .ok (tw', cnts') => emitSeqs start stop states tw' cnts' rest

/-- The second half of `HMM.estimate_emission`: per state, divide each count by
`state_cnt + k` and then assign the UNKNOWN token the value `k / (state_cnt + k)`
(an assignment, so an existing literal `#UNK#` entry is overwritten in place). -/
def emissionProbsOf (k : ℚ) (cnts : List (String × List (String × Nat))) :
    List (String × List (String × ℚ)) :=
  cnts.map (fun sc =>
    (sc.1,
      aset (sc.2.map (fun wc => (wc.1, calculate_emission_mle (wc.2 : ℚ) (sumVals sc.2 : ℚ) k)))
        UNKNOWN_TOKEN (calculate_emission_mle k (sumVals sc.2 : ℚ) k)))

/-- `HMM.estimate_emission`; returns the updated `training_words` together with
the emission table. -/
def estimate_emission (start stop : String) (states : List String)
    (training_words : List (String × Nat)) (obs : List Seq) (k : ℚ) :
    Except Err (List (String × Nat) × List (String × List (String × ℚ))) :=
  match emitSeqs start stop states training_words (initCounts states) obs with
  | .error e => .error e
  | .ok (tw, cnts) => .ok (tw, emissionProbsOf k cnts)

/-- `HMM.get_emission_probability`. -/
def get_emission_probability (m : HMM) (state word : String) : Except Err ℚ :=
  if (alookup m.training_words word).isSome then
    match alookup m.emission_probs state with
    | none => .error (.keyError state)
    | some inner => .ok ((alookup inner word).getD 0)
  else
    match alookup m.emission_probs state with
    | none => .error (.keyError state)
    | some inner =>
      match alookup inner UNKNOWN_TOKEN with
      | none => .error (.keyError UNKNOWN_TOKEN)
      | some p => .ok p

/-- The inner loop of `HMM.estimate_transition` over the consecutive state
pairs of one sequence: `state_transition_cnts[prev][curr] += 1`, where a
missing `prev` key is a `KeyError`. -/
def transPairs :
    List (String × List (String × Nat)) → List (WSPair × WSPair) →
    Except Err (List (String × List (String × Nat)))
  | cnts, [] => .ok cnts
  | cnts, (prev, curr) :: rest =>
    match alookup cnts prev.2 with
    | none => .error (.keyError prev.2)
    | some inner => transPairs (aset cnts prev.2 (aincr inner curr.2)) rest

/-- The outer loop of `HMM.estimate_transition`. -/
def transSeqs (start stop : String) :
    List (String × List (String × Nat)) → List Seq →
    Except Err (List (String × List (String × Nat)))
  | cnts, [] => .ok cnts
  | cnts, seq :: rest =>
    match check_end_states start stop seq with
    | .error e => .error e
    | .ok _ =>
      match transPairs cnts (seq.zip seq.tail) with
      | .error e => .error e
      | .ok cnts' => transSeqs start stop cnts' rest

/-- The second half of `HMM.estimate_transition`: per state, divide each
successor count by the state's total outgoing count. -/
def transitionProbsOf (cnts : List (String × List (String × Nat))) :
    List (String × List (String × ℚ)) :=
  cnts.map (fun sc =>
    (sc.1, sc.2.map (fun tc => (tc.1, calculate_transition_mle tc.2 (sumVals sc.2)))))

/-- `HMM.estimate_transition`; returns the raw counts (`self._transition_cnts`)
together with the transition table. -/
def estimate_transition (start stop : String) (states : List String) (obs : List Seq) :
    Except Err (List (String × List (String × Nat)) × List (String × List (String × ℚ))) :=
  match transSeqs start stop (initCounts (start :: states)) obs with
  | .error e => .error e
  | .ok cnts => .ok (cnts, transitionProbsOf cnts)

/-- `HMM.get_transition_probability`: `self.transition_probs[state1].get(state2, 0)`. -/
def get_transition_probability (m : HMM) (state1 state2 : String) : Except Err ℚ :=
  match alookup m.transition_probs state1 with
  | none => .error (.keyError state1)
  | some inner => .ok ((alookup inner state2).getD 0)

/-- `HMM.train`: re-estimate both tables from the observations (with the
default smoothing constant 1), accumulating onto the current `training_words`. -/
def train (m : HMM) (obs : List Seq) : Except Err HMM :=
  match estimate_emission m.start m.stop m.states m.training_words obs 1 with
  | .error e => .error e
  | .ok (tw, ep) =>
    match estimate_transition m.start m.stop m.states obs with
    | .error e => .error e
    | .ok (tc, tp) => .ok (HMM.mk m.start m.stop m.states ep tp tw tc)

/-- Python `max(xs, key=itemgetter(1))` on a nonempty list `m :: l`: keep the
first element whose second component is maximal. -/
def pyMaxGo : (α × ℚ) → List (α × ℚ) → (α × ℚ)
  | m, [] => m
  | m, x :: xs => pyMaxGo (if x.2 > m.2 then x else m) xs

/-- The list `word_emission_probs` built by `HMM._argmax_emission`. -/
def wordProbs (ep : List (String × List (String × ℚ))) (word : String) :
    List (String × ℚ) :=
  ep.map (fun sd => (sd.1, (alookup sd.2 word).getD 0))

/-- `HMM._argmax_emission`. -/
def argmax_emission (m : HMM) (word : String) : Except Err String :=
  match wordProbs m.emission_probs word with
  | [] => .error .emptyEmission
  | p :: ps => .ok (pyMaxGo p ps).1

/-- The loop of `HMM.naive_label_sequence`: skip end states, label every other
word with `_argmax_emission`. -/
def naiveLoop (m : HMM) : Seq → Except Err Seq
  | [] => .ok []
  | (word, state) :: rest =>
    if state = m.start ∨ state = m.stop then naiveLoop m rest
    else
      match argmax_emission m word with
      | .error e => .error e
      | .ok s =>
        match naiveLoop m rest with
        | .error e => .error e
        | .ok l => .ok ((word, s) :: l)

/-- `HMM.naive_label_sequence`. -/
def naive_label_sequence (m : HMM) (seq : Seq) : Except Err Seq :=
  if m.emission_probs = [] then .error .emptyEmission
  else
    match naiveLoop m seq with
    | .error e => .error e
    | .ok l => .ok (("", m.start) :: (l ++ [("", m.stop)]))

/-- `HMM._process_unknown_word`. -/
def process_unknown_word (m : HMM) (word : String) : String :=
  if (alookup m.training_words word).isSome then word else UNKNOWN_TOKEN

/-- One layer of the Viterbi graph: state ↦ (best predecessor, score). -/
abbrev Layer := List (String × (String × ℚ))

/-- The Viterbi graph: iteration ↦ layer. -/
abbrev Graph := List (Nat × Layer)

/-- The `temp_nodes` loop of `HMM._dp_helper`: for each previous state read
`viterbi_graph[iprev][prev]`, the transition and (unless final) emission
probabilities, and record `(prev, prob * alpha * beta * c)`. -/
def tempNodes (m : HMM) (graph : Graph) (iprev : Nat) (curr word : String)
    (final : Bool) (c : ℚ) : List String → Except Err (List (String × ℚ))
  | [] => .ok []
  | prev :: rest =>
    match alookup graph iprev with
    | none => .error (.keyErrorNat iprev)
    | some prevLayer =>
      match alookup prevLayer prev with
      | none => .error (.keyError prev)
      | some node =>
        match get_transition_probability m prev curr with
        | .error e => .error e
        | .ok alpha =>
          match (if final then .ok 1 else get_emission_probability m curr word) with
          | .error e => .error e
          | .ok beta =>
            match tempNodes m graph iprev curr word final c rest with
            | .error e => .error e
            | .ok nodes => .ok ((prev, node.2 * alpha * beta * c) :: nodes)

/-- `HMM._dp_helper`: guard the iteration and state, then fill
`viterbi_graph[iteration][curr_state]` with the base-case node (iteration 1)
or the maximum of `temp_nodes` (later iterations, with emission probability 1
at the final iteration). -/
def dp_helper (m : HMM) (iteration : ℤ) (curr : String) (seq : Seq)
    (graph : Graph) (c : ℚ) : Except Err Graph :=
  if iteration < 1 ∨ (seq.length : ℤ) ≤ iteration then .error (.invalidIteration iteration)
  else if curr ∈ m.states ++ [m.stop] then
    let i := iteration.toNat
    let word := process_unknown_word m (seq.getD i ("", "")).1
    if i = 1 then
      match get_transition_probability m m.start curr with
      | .error e => .error e
      | .ok alpha =>
        match get_emission_probability m curr word with
        | .error e => .error e
        | .ok beta =>
          match alookup graph i with
          | none => .error (.keyErrorNat i)
          | some layer => .ok (aset graph i (aset layer curr (m.start, alpha * beta * c)))
    else
      match tempNodes m graph (i - 1) curr word (decide (i = seq.length - 1)) c m.states with
      | .error e => .error e
      | .ok [] => .error .valueError
      | .ok (n :: ns) =>
        match alookup graph i with
        | none => .error (.keyErrorNat i)
        | some layer => .ok (aset graph i (aset layer curr (pyMaxGo n ns)))
  else .error (.invalidState curr)

/-- The inner loop of `HMM.viterbi` over `self.states` at one iteration. -/
def dpStates (m : HMM) (i : Nat) (seq : Seq) (c : ℚ) :
    List String → Graph → Except Err Graph
  | [], g => .ok g
  | s :: rest, g =>
    match dp_helper m (i : ℤ) s seq g c with
    | .error e => .error e
    | .ok g' => dpStates m i seq c rest g'

/-- The outer loop of `HMM.viterbi` over the iterations `1 .. len(sequence)-1`:
at the last iteration only the STOP state is filled. -/
def viterbiIter (m : HMM) (seq : Seq) (c : ℚ) : List Nat → Graph → Except Err Graph
  | [], g => .ok g
  | i :: rest, g =>
    if i = seq.length - 1 then
      match dp_helper m (i : ℤ) m.stop seq g c with
      | .error e => .error e
      | .ok g' => viterbiIter m seq c rest g'
    else
      match dpStates m i seq c m.states g with
      | .error e => .error e
      | .ok g' => viterbiIter m seq c rest g'

/-- `HMM.viterbi`: check the end states, initialise `{i: {} for i in 1..L-1}`,
run the iterations. -/
def viterbi (m : HMM) (seq : Seq) (c : ℚ) : Except Err Graph :=
  match check_end_states m.start m.stop seq with
  | .error e => .error e
  | .ok _ =>
    viterbiIter m seq c (List.range' 1 (seq.length - 1))
      ((List.range' 1 (seq.length - 1)).map (fun i => (i, ([] : Layer))))

/-- The backtrace loop of `HMM.viterbi_predict` for one sequence: walk the
indices `L-2, …, 0`, each time following `viterbi_graph[i+1][child][0]`. -/
def backtraceLoop (g : Graph) (seq : Seq) : List Nat → Seq → Except Err Seq
  | [], acc => .ok acc
  | i :: rest, acc =>
    let word := (seq.getD i ("", "")).1
    let child := (acc.headD ("", "")).2
    match alookup g (i + 1) with
    | none => .error (.keyErrorNat (i + 1))
    | some layer =>
      match alookup layer child with
      | none => .error (.keyError child)
      | some node => backtraceLoop g seq rest ((word, node.1) :: acc)

/-- One sequence of `HMM.viterbi_predict`: build the Viterbi graph with scaling
constant `c`, then backtrace from `("", STOP)`. -/
def viterbi_label (m : HMM) (seq : Seq) (c : ℚ) : Except Err Seq :=
  match viterbi m seq c with
  | .error e => .error e
  | .ok g => backtraceLoop g seq ((List.range (seq.length - 1)).reverse) [("", m.stop)]

/-- The two guard failures of `_dp_helper` — the spec's `InvalidArgumentError`. -/
def isInvalidArgumentErr : Err → Bool
  | .invalidIteration _ => true
  | .invalidState _ => true
  | _ => false

/-- Whether a `_dp_helper` result signals the spec's `InvalidArgumentError`. -/
def signalsInvalidArgument : Except Err Graph → Bool
  | .error e => isInvalidArgumentErr e
  | .ok _ => false

/-- The spec's `BoundaryIntegrityError`: the two raise sites of
`_check_end_states`. -/
def isBoundaryErr : Err → Bool
  | .invalidStart _ => true
  | .invalidStop _ => true
  | _ => false

/-- Scale every stored score of a depth-`i` Viterbi layer by `t ^ i`, keeping
every backpointer. -/
def scaleLayer (t : ℚ) (i : Nat) (layer : Layer) : Layer :=
  layer.map (fun sn => (sn.1, (sn.2.1, sn.2.2 * t ^ i)))

/-- Scale every stored score of layer `i` by `t ^ i`, keeping every
backpointer: the relation between two Viterbi graphs built with scaling
constants `c` and `c * t`. -/
def scaleGraph (t : ℚ) (g : Graph) : Graph :=
  g.map (fun il => (il.1, scaleLayer t il.1 il.2))

/-! Basic association-list lemmas. -/

theorem alookup_aset [DecidableEq α] (l : List (α × β)) (k : α) (v : β) (w : α) :
    alookup (aset l k v) w = if w = k then some v else alookup l w := by
  induction l with
  | nil => simp [aset, alookup]
  | cons p rest ih =>
    rcases p with ⟨k', v'⟩
    by_cases hk : k' = k
    · subst hk
      simp only [aset, if_pos rfl, alookup]
      by_cases hw : w = k' <;> simp [hw]
    · simp only [aset, if_neg hk, alookup, ih]
      by_cases hw : w = k'
      · subst hw
        simp [hk]
      · simp [hw]

theorem alookup_keyed_map [DecidableEq α] (l : List (α × β)) (f : α → β → γ) (w : α) :
    alookup (l.map (fun p => (p.1, f p.1 p.2))) w = (alookup l w).map (f w) := by
  induction l with
  | nil => simp [alookup]
  | cons p rest ih =>
    by_cases hw : w = p.1
    · simp [alookup, hw]
    · simp [alookup, hw, ih]

theorem aset_of_alookup_none [DecidableEq α] (l : List (α × β)) (k : α) (v : β)
    (h : alookup l k = none) : aset l k v = l ++ [(k, v)] := by
  induction l with
  | nil => simp [aset]
  | cons p rest ih =>
    rcases p with ⟨k', v'⟩
    by_cases hk : k' = k
    · subst hk
      rw [alookup, if_pos rfl] at h
      cases h
    · have hk' : ¬ (k = k') := fun hc => hk hc.symm
      rw [alookup, if_neg hk'] at h
      simp [aset, if_neg hk, ih h]

theorem alookup_aincr [DecidableEq α] (l : List (α × Nat)) (k w : α) :
    alookup (aincr l k) w =
      if w = k then some ((alookup l k).getD 0 + 1) else alookup l w := by
  induction l with
  | nil => simp [aincr, alookup]
  | cons p rest ih =>
    rcases p with ⟨k', v'⟩
    by_cases hk : k' = k
    · subst hk
      simp only [aincr, if_pos rfl, alookup]
      by_cases hw : w = k' <;> simp [hw]
    · have hk' : ¬ (k = k') := fun hc => hk hc.symm
      simp only [aincr, if_neg hk, alookup, ih, if_neg hk']
      by_cases hw : w = k'
      · subst hw
        simp [hk]
      · simp [hw]

theorem sum_map_div (l : List γ) (f : γ → ℚ) (d : ℚ) :
    (l.map (fun x => f x / d)).sum = (l.map f).sum / d := by
  induction l with
  | nil => simp
  | cons x xs ih => simp [ih, add_div]

/-! Python `max(_, key=itemgetter(1))` lemmas. -/

/-- The running maximum of the second components, seeded at `q`. -/
def maxVal (q : ℚ) : List (α × ℚ) → ℚ
  | [] => q
  | x :: xs => maxVal (max q x.2) xs

theorem le_maxVal_seed (q : ℚ) (xs : List (α × ℚ)) : q ≤ maxVal q xs := by
  induction xs generalizing q with
  | nil => simp [maxVal]
  | cons x xs ih => exact le_trans (le_max_left _ _) (ih _)

theorem pyMaxGo_snd (m : α × ℚ) (xs : List (α × ℚ)) :
    (pyMaxGo m xs).2 = maxVal m.2 xs := by
  induction xs generalizing m with
  | nil => simp [pyMaxGo, maxVal]
  | cons x xs ih =>
    simp only [pyMaxGo, maxVal, ih]
    by_cases h : x.2 > m.2
    · rw [if_pos h, max_eq_right (le_of_lt h)]
    · rw [if_neg h, max_eq_left (le_of_not_lt h)]

theorem find?_pyMaxGo (m : α × ℚ) (xs : List (α × ℚ)) :
    (m :: xs).find? (fun p => decide (p.2 = maxVal m.2 xs)) = some (pyMaxGo m xs) := by
  induction xs generalizing m with
  | nil => simp [maxVal, pyMaxGo]
  | cons x xs ih =>
    simp only [maxVal, pyMaxGo]
    by_cases h : x.2 > m.2
    · simp only [if_pos h, max_eq_right (le_of_lt h)]
      have hm : ¬ (m.2 = maxVal x.2 xs) :=
        fun hc => absurd (hc ▸ le_maxVal_seed x.2 xs) (not_le_of_lt h)
      rw [List.find?_cons_of_neg _ (by simpa using hm)]
      exact ih x
    · simp only [if_neg h, max_eq_left (le_of_not_lt h)]
      have hih := ih m
      by_cases hm : m.2 = maxVal m.2 xs
      · rw [List.find?_cons_of_pos _ (by simpa using hm)] at hih ⊢
        exact hih
      · have hx : ¬ (x.2 = maxVal m.2 xs) := fun hc =>
          hm (le_antisymm (le_maxVal_seed m.2 xs)
            (hc ▸ le_of_not_lt h))
        rw [List.find?_cons_of_neg _ (by simpa using hm)] at hih
        rw [List.find?_cons_of_neg _ (by simpa using hm),
          List.find?_cons_of_neg _ (by simpa using hx)]
        exact hih

theorem pyMaxGo_scale (t : ℚ) (ht : 0 < t) (m : α × ℚ) (xs : List (α × ℚ)) :
    pyMaxGo (m.1, m.2 * t) (xs.map (fun p => (p.1, p.2 * t))) =
      ((pyMaxGo m xs).1, (pyMaxGo m xs).2 * t) := by
  induction xs generalizing m with
  | nil => simp [pyMaxGo]
  | cons x xs ih =>
    simp only [List.map_cons, pyMaxGo]
    by_cases h : x.2 > m.2
    · rw [if_pos (by simpa using (mul_lt_mul_of_pos_right h ht)), if_pos h]
      exact ih x
    · rw [if_neg (by simpa using fun hc => h (lt_of_mul_lt_mul_right hc (le_of_lt ht))), if_neg h]
      exact ih m

/-! Structural lemmas about the emission estimator. -/

theorem alookup_foldl_aset_nil (ks : List String)
    (acc : List (String × List (String × Nat))) (s : String) :
    alookup (ks.foldl (fun a k => aset a k ([] : List (String × Nat))) acc) s
      = if s ∈ ks then some [] else alookup acc s := by
  induction ks generalizing acc with
  | nil => simp
  | cons k ks ih =>
    simp only [List.foldl_cons, ih, alookup_aset]
    by_cases hs : s ∈ ks
    · simp [hs]
    · by_cases hk : s = k
      · simp [hk, hs]
      · simp [hs, hk]

theorem initCounts_alookup (ks : List String) (s : String) :
    alookup (initCounts ks) s = if s ∈ ks then some [] else none := by
  simpa [initCounts, alookup] using alookup_foldl_aset_nil ks [] s

theorem emitPairs_isSome (start stop : String) (states : List String)
    (ps : List WSPair) (tw tw' : List (String × Nat))
    (cnts cnts' : List (String × List (String × Nat)))
    (h : emitPairs start stop states tw cnts ps = .ok (tw', cnts')) (s : String) :
    (alookup cnts' s).isSome = (alookup cnts s).isSome := by
  induction ps generalizing tw cnts with
  | nil =>
    simp only [emitPairs, Except.ok.injEq, Prod.mk.injEq] at h
    rw [h.2]
  | cons p ps ih =>
    rcases p with ⟨w, st⟩
    simp only [emitPairs] at h
    split at h
    · exact ih _ _ h
    · split at h
      · cases hc : alookup cnts st with
        | none => rw [hc] at h; cases h
        | some inner =>
          rw [hc] at h
          rw [ih _ _ h, alookup_aset]
          by_cases hs : s = st
          · subst hs; simp [hc]
          · simp [hs]
      · cases h

theorem emitSeqs_isSome (start stop : String) (states : List String)
    (seqs : List Seq) (tw tw' : List (String × Nat))
    (cnts cnts' : List (String × List (String × Nat)))
    (h : emitSeqs start stop states tw cnts seqs = .ok (tw', cnts')) (s : String) :
    (alookup cnts' s).isSome = (alookup cnts s).isSome := by
  induction seqs generalizing tw cnts with
  | nil =>
    simp only [emitSeqs, Except.ok.injEq, Prod.mk.injEq] at h
    rw [h.2]
  | cons q qs ih =>
    simp only [emitSeqs] at h
    split at h
    · cases h
    · split at h
      · cases h
      · rename_i tw2 cnts2 heq
        rw [ih _ _ h, emitPairs_isSome start stop states q tw tw2 cnts cnts2 heq s]

theorem emitPairs_unobserved (start stop : String) (states : List String)
    (ps : List WSPair) (tw tw' : List (String × Nat))
    (cnts cnts' : List (String × List (String × Nat)))
    (h : emitPairs start stop states tw cnts ps = .ok (tw', cnts')) (s : String)
    (hs : ∀ ws ∈ ps, ws.2 ≠ s) : alookup cnts' s = alookup cnts s := by
  induction ps generalizing tw cnts with
  | nil =>
    simp only [emitPairs, Except.ok.injEq, Prod.mk.injEq] at h
    rw [h.2]
  | cons p ps ih =>
    rcases p with ⟨w, st⟩
    have hst : st ≠ s := hs (w, st) (List.mem_cons_self _ _)
    have hrest : ∀ ws ∈ ps, ws.2 ≠ s := fun ws hws => hs ws (List.mem_cons_of_mem _ hws)
    simp only [emitPairs] at h
    split at h
    · exact ih _ _ h hrest
    · split at h
      · cases hc : alookup cnts st with
        | none => rw [hc] at h; cases h
        | some inner =>
          rw [hc] at h
          rw [ih _ _ h hrest, alookup_aset, if_neg (fun hc' => hst hc'.symm)]
      · cases h

theorem emitSeqs_unobserved (start stop : String) (states : List String)
    (seqs : List Seq) (tw tw' : List (String × Nat))
    (cnts cnts' : List (String × List (String × Nat)))
    (h : emitSeqs start stop states tw cnts seqs = .ok (tw', cnts')) (s : String)
    (hs : ∀ seq ∈ seqs, ∀ ws ∈ seq, ws.2 ≠ s) : alookup cnts' s = alookup cnts s := by
  induction seqs generalizing tw cnts with
  | nil =>
    simp only [emitSeqs, Except.ok.injEq, Prod.mk.injEq] at h
    rw [h.2]
  | cons q qs ih =>
    simp only [emitSeqs] at h
    split at h
    · cases h
    · split at h
      · cases h
      · rename_i tw2 cnts2 heq
        rw [ih _ _ h (fun seq hseq => hs seq (List.mem_cons_of_mem _ hseq)),
          emitPairs_unobserved start stop states q tw tw2 cnts cnts2 heq s
            (hs q (List.mem_cons_self _ _))]

theorem emissionProbsOf_alookup (k : ℚ) (cnts : List (String × List (String × Nat)))
    (s : String) :
    alookup (emissionProbsOf k cnts) s = (alookup cnts s).map (fun inner =>
      aset (inner.map (fun wc =>
          (wc.1, calculate_emission_mle (wc.2 : ℚ) ((sumVals inner : ℕ) : ℚ) k)))
        UNKNOWN_TOKEN (calculate_emission_mle k ((sumVals inner : ℕ) : ℚ) k)) := by
  simpa using alookup_keyed_map cnts (fun _ inner =>
    aset (inner.map (fun wc =>
        (wc.1, calculate_emission_mle (wc.2 : ℚ) ((sumVals inner : ℕ) : ℚ) k)))
      UNKNOWN_TOKEN (calculate_emission_mle k ((sumVals inner : ℕ) : ℚ) k)) s

/-- Claim C1, counterexample to the original statement: train on a corpus in
which state `A` emits the literal token `#UNK#` twice and `x` once, so
`C = 3`, `k = 1`.  The claim says the emission probability of `#UNK#` (a token
observed `c = 2` times under `A`) is `c / (C + k) = 2 / 4`; the code stores
`1 / 4`, because the UNKNOWN-bucket assignment overwrites the observed entry,
and the state's probabilities (observed plus UNKNOWN bucket) then sum to
`1 / 2`, not 1. -/
theorem claim_C1_counterexample :
    (match estimate_emission "START" "STOP" ["A"] []
        [[("", "START"), ("#UNK#", "A"), ("#UNK#", "A"), ("x", "A"), ("", "STOP")]] 1 with
      | .ok (_, ep) => some (lookup2 ep "A" "#UNK#",
          (alookup ep "A").map (fun pinner => (pinner.map (·.2)).sum))
      | .error _ => none)
      = some (some (1/4), some (1/2)) ∧
    ¬ ((1 : ℚ)/4 = 2/(3 + 1)) ∧ ¬ ((1 : ℚ)/2 = 1) := by
  refine ⟨by decide, by norm_num, by norm_num⟩

/-- Claim C1 (amended): for every trained model and interior state `s` whose
raw counts do not themselves contain the reserved UNKNOWN token, with total
emission count `C` and smoothing constant `k > 0`: every token observed `c`
times under `s` gets emission probability `c / (C + k)`, the UNKNOWN entry of
`s` is `k / (C + k)`, and the probabilities of `s` (observed tokens plus the
UNKNOWN bucket) sum to exactly 1 over rational arithmetic. -/
theorem claim_C1_amended (start stop : String) (states : List String)
    (tw0 tw : List (String × Nat)) (cnts : List (String × List (String × Nat)))
    (obs : List Seq) (k : ℚ) (hk : 0 < k)
    (h : emitSeqs start stop states tw0 (initCounts states) obs = .ok (tw, cnts))
    (s : String) (inner : List (String × Nat))
    (hs : alookup cnts s = some inner)
    (hunk : alookup inner UNKNOWN_TOKEN = none) :
    estimate_emission start stop states tw0 obs k = .ok (tw, emissionProbsOf k cnts) ∧
    ∃ pinner, alookup (emissionProbsOf k cnts) s = some pinner ∧
      (∀ w c, alookup inner w = some c →
        alookup pinner w = some (calculate_emission_mle (c : ℚ) ((sumVals inner : ℕ) : ℚ) k)) ∧
      alookup pinner UNKNOWN_TOKEN
        = some (calculate_emission_mle k ((sumVals inner : ℕ) : ℚ) k) ∧
      (pinner.map (·.2)).sum = 1 := by
  have hC : (0 : ℚ) < ((sumVals inner : ℕ) : ℚ) + k :=
    add_pos_of_nonneg_of_pos (Nat.cast_nonneg _) hk
  refine ⟨by simp only [estimate_emission, h], ?_⟩
  refine ⟨_, by rw [emissionProbsOf_alookup, hs, Option.map_some'], ?_, ?_, ?_⟩
  · intro w c hw
    have hwne : w ≠ UNKNOWN_TOKEN := by
      intro hw'
      rw [hw'] at hw
      rw [hunk] at hw
      cases hw
    rw [alookup_aset, if_neg hwne,
      alookup_keyed_map inner
        (fun _ c => calculate_emission_mle (c : ℚ) ((sumVals inner : ℕ) : ℚ) k) w,
      hw]
    rfl
  · rw [alookup_aset, if_pos rfl]
  · have hmapped : alookup (inner.map (fun wc =>
        (wc.1, calculate_emission_mle (wc.2 : ℚ) ((sumVals inner : ℕ) : ℚ) k)))
        UNKNOWN_TOKEN = none := by
      rw [alookup_keyed_map inner
        (fun _ c => calculate_emission_mle (c : ℚ) ((sumVals inner : ℕ) : ℚ) k), hunk]
      rfl
    rw [aset_of_alookup_none _ _ _ hmapped]
    have hsum : ((inner.map (fun wc =>
        (wc.1, calculate_emission_mle (wc.2 : ℚ) ((sumVals inner : ℕ) : ℚ) k))).map (·.2)).sum
        = ((sumVals inner : ℕ) : ℚ) / (((sumVals inner : ℕ) : ℚ) + k) := by
      rw [List.map_map]
      have : ((·.2) ∘ fun wc : String × Nat =>
          (wc.1, calculate_emission_mle (wc.2 : ℚ) ((sumVals inner : ℕ) : ℚ) k))
          = fun wc : String × Nat => ((wc.2 : ℚ) / (((sumVals inner : ℕ) : ℚ) + k)) := by
        funext wc
        rfl
      rw [this, sum_map_div inner (fun wc => (wc.2 : ℚ)) (((sumVals inner : ℕ) : ℚ) + k)]
      congr 1
      rw [sumVals, Nat.cast_list_sum, List.map_map]
      rfl
    rw [List.map_append, List.sum_append, hsum]
    simp only [List.map_cons, List.map_nil, List.sum_cons, List.sum_nil, add_zero,
      calculate_emission_mle]
    rw [div_add_div_same, div_self (ne_of_gt hC)]

/-- Claim C1, witness for the amended theorem: the two-sequence corpus from the
design notes — state `A` emits `x` twice (`C = 2`, `k = 1`), so
`P(x | A) = 2/3`, the UNKNOWN bucket is `1/3`, and `A`'s probabilities sum
to 1. -/
theorem claim_C1_witness :
    estimate_emission "START" "STOP" ["A", "B"] []
        [[("", "START"), ("x", "A"), ("y", "B"), ("", "STOP")],
         [("", "START"), ("x", "A"), ("x", "B"), ("", "STOP")]] 1
      = .ok ([("x", 3), ("y", 1)],
          emissionProbsOf 1 [("A", [("x", 2)]), ("B", [("y", 1), ("x", 1)])]) ∧
    ∃ pinner,
      alookup (emissionProbsOf 1 [("A", [("x", 2)]), ("B", [("y", 1), ("x", 1)])]) "A"
        = some pinner ∧
      (∀ (w : String) (c : ℕ), alookup [("x", 2)] w = some c →
        alookup pinner w = some (calculate_emission_mle (c : ℚ)
          ((sumVals [("x", 2)] : ℕ) : ℚ) 1)) ∧
      alookup pinner UNKNOWN_TOKEN
        = some (calculate_emission_mle 1 ((sumVals [("x", 2)] : ℕ) : ℚ) 1) ∧
      (pinner.map (·.2)).sum = 1 :=
  claim_C1_amended "START" "STOP" ["A", "B"] [] [("x", 3), ("y", 1)]
    [("A", [("x", 2)]), ("B", [("y", 1), ("x", 1)])]
    [[("", "START"), ("x", "A"), ("y", "B"), ("", "STOP")],
     [("", "START"), ("x", "A"), ("x", "B"), ("", "STOP")]] 1
    (by norm_num) (by decide) "A" [("x", 2)] (by decide) (by decide)

/-- Claim C10: after training, every interior state supplied at construction
has an emission-table entry containing an UNKNOWN-token probability, that
probability is strictly positive, and for a state that never appeared in the
training data the entry is exactly `[(UNKNOWN_TOKEN, 1)]` (the probability
`k / (0 + k) = 1` is its only entry). -/
theorem claim_C10 (start stop : String) (states : List String)
    (tw0 tw : List (String × Nat)) (ep : List (String × List (String × ℚ)))
    (obs : List Seq) (k : ℚ) (hk : 0 < k)
    (h : estimate_emission start stop states tw0 obs k = .ok (tw, ep))
    (s : String) (hs : s ∈ states) :
    ∃ pinner p, alookup ep s = some pinner ∧
      alookup pinner UNKNOWN_TOKEN = some p ∧ 0 < p ∧
      ((∀ seq ∈ obs, ∀ ws ∈ seq, ws.2 ≠ s) → pinner = [(UNKNOWN_TOKEN, 1)]) := by
  rw [estimate_emission] at h
  cases hemit : emitSeqs start stop states tw0 (initCounts states) obs with
  | error e => rw [hemit] at h; cases h
  | ok r =>
    rcases r with ⟨tw1, cnts⟩
    rw [hemit] at h
    injection h with h
    injection h with h1 h2
    subst h2
    have hSome : (alookup cnts s).isSome = true := by
      rw [emitSeqs_isSome start stop states obs tw0 tw1 (initCounts states) cnts hemit s,
        initCounts_alookup, if_pos hs]
      rfl
    cases hcnts : alookup cnts s with
    | none => rw [hcnts] at hSome; cases hSome
    | some inner =>
      refine ⟨_, calculate_emission_mle k ((sumVals inner : ℕ) : ℚ) k,
        by rw [emissionProbsOf_alookup, hcnts, Option.map_some'], ?_, ?_, ?_⟩
      · rw [alookup_aset, if_pos rfl]
      · rw [calculate_emission_mle]
        exact div_pos hk (add_pos_of_nonneg_of_pos (Nat.cast_nonneg _) hk)
      · intro hnever
        have hinner : some inner = some [] := by
          rw [← hcnts,
            emitSeqs_unobserved start stop states obs tw0 tw1 (initCounts states) cnts hemit s
              hnever, initCounts_alookup, if_pos hs]
        injection hinner with hinner
        subst hinner
        have : calculate_emission_mle k ((sumVals ([] : List (String × Nat)) : ℕ) : ℚ) k = 1 := by
          simp [calculate_emission_mle, sumVals, div_self (ne_of_gt hk)]
        simp [aset, this]

/-- Claim C10, witness: training on a corpus in which interior state `B` never
occurs still gives `B` the emission entry `[(#UNK#, 1)]`. -/
theorem claim_C10_witness :
    ∃ pinner p,
      alookup (emissionProbsOf 1 [("A", [("x", 1)]), ("B", [])]) "B" = some pinner ∧
      alookup pinner UNKNOWN_TOKEN = some p ∧ 0 < p ∧
      ((∀ seq ∈ [[("", "START"), ("x", "A"), ("", "STOP")]], ∀ ws ∈ seq, Prod.snd ws ≠ "B") →
        pinner = [(UNKNOWN_TOKEN, 1)]) :=
  claim_C10 "START" "STOP" ["A", "B"] [] [("x", 1)]
    (emissionProbsOf 1 [("A", [("x", 1)]), ("B", [])])
    [[("", "START"), ("x", "A"), ("", "STOP")]] 1 (by norm_num) (by decide) "B" (by decide)

/-- Claim C4, counterexample to the original statement: train on a corpus in
which state `A` emits the literal token `#UNK#` and state `B` emits `x`.  The
token `#UNK#` was seen in training (under `A`) and never under `B`, so the
claim says the lookup for `(B, #UNK#)` returns 0; the code returns `1/2`
(`B`'s UNKNOWN-bucket probability), conflating the two cases. -/
theorem claim_C4_counterexample :
    (match estimate_emission "START" "STOP" ["A", "B"] []
        [[("", "START"), ("#UNK#", "A"), ("x", "B"), ("", "STOP")]] 1 with
      | .ok (tw, ep) =>
        some ((alookup tw "#UNK#").isSome,
          get_emission_probability (HMM.mk "START" "STOP" ["A", "B"] ep [] tw []) "B" "#UNK#")
      | .error _ => none)
      = some (true, .ok (1/2)) ∧ ¬ ((1 : ℚ)/2 = 0) := by
  refine ⟨by decide, by norm_num⟩

/-- Claim C4 (amended): for a trained model and an interior state `s`: a token
never seen anywhere in training is rerouted to `s`'s UNKNOWN-token
probability, and a token seen in training but never under `s` returns 0 —
provided that token is not the reserved UNKNOWN token itself (a literal
`#UNK#` training token rather yields `s`'s UNKNOWN probability). -/
theorem claim_C4_amended (start stop : String) (states : List String)
    (tw0 tw : List (String × Nat)) (cnts : List (String × List (String × Nat)))
    (tp : List (String × List (String × ℚ))) (tc : List (String × List (String × Nat)))
    (obs : List Seq) (k : ℚ)
    (h : emitSeqs start stop states tw0 (initCounts states) obs = .ok (tw, cnts))
    (s : String) (inner : List (String × Nat)) (hs : alookup cnts s = some inner)
    (w : String) :
    estimate_emission start stop states tw0 obs k = .ok (tw, emissionProbsOf k cnts) ∧
    (alookup tw w = none →
      get_emission_probability (HMM.mk start stop states (emissionProbsOf k cnts) tp tw tc) s w
        = .ok (calculate_emission_mle k ((sumVals inner : ℕ) : ℚ) k)) ∧
    ((alookup tw w).isSome = true → w ≠ UNKNOWN_TOKEN → alookup inner w = none →
      get_emission_probability (HMM.mk start stop states (emissionProbsOf k cnts) tp tw tc) s w
        = .ok 0) := by
  refine ⟨by simp only [estimate_emission, h], ?_, ?_⟩
  · intro hw
    rw [get_emission_probability]
    simp [hw, emissionProbsOf_alookup, hs, alookup_aset]
  · intro hw hwu hwi
    rw [get_emission_probability]
    simp only [hw, if_true, emissionProbsOf_alookup, hs, Option.map_some', alookup_aset,
      if_neg hwu]
    rw [alookup_keyed_map inner
      (fun _ c => calculate_emission_mle (c : ℚ) ((sumVals inner : ℕ) : ℚ) k) w, hwi]
    rfl

/-- Claim C4, witness for the amended theorem: in the two-sequence corpus,
`z` was never seen in training, so the lookup for `(A, z)` gives `A`'s
UNKNOWN probability `1/3`; `y` was seen (under `B`) but never under `A`, so
the lookup for `(A, y)` gives 0. -/
theorem claim_C4_witness :
    (estimate_emission "START" "STOP" ["A", "B"] []
        [[("", "START"), ("x", "A"), ("y", "B"), ("", "STOP")],
         [("", "START"), ("x", "A"), ("x", "B"), ("", "STOP")]] 1
      = .ok ([("x", 3), ("y", 1)],
          emissionProbsOf 1 [("A", [("x", 2)]), ("B", [("y", 1), ("x", 1)])]) ∧
      (alookup [("x", 3), ("y", 1)] "z" = none →
        get_emission_probability
          (HMM.mk "START" "STOP" ["A", "B"]
            (emissionProbsOf 1 [("A", [("x", 2)]), ("B", [("y", 1), ("x", 1)])]) []
            [("x", 3), ("y", 1)] []) "A" "z"
          = .ok (calculate_emission_mle 1 ((sumVals [("x", 2)] : ℕ) : ℚ) 1)) ∧
      ((alookup [("x", 3), ("y", 1)] "z").isSome = true → "z" ≠ UNKNOWN_TOKEN →
        alookup [("x", 2)] "z" = none →
        get_emission_probability
          (HMM.mk "START" "STOP" ["A", "B"]
            (emissionProbsOf 1 [("A", [("x", 2)]), ("B", [("y", 1), ("x", 1)])]) []
            [("x", 3), ("y", 1)] []) "A" "z"
          = .ok 0)) ∧
    ((alookup ([("x", 3), ("y", 1)] : List (String × Nat)) "y").isSome = true ∧
      get_emission_probability
        (HMM.mk "START" "STOP" ["A", "B"]
          (emissionProbsOf 1 [("A", [("x", 2)]), ("B", [("y", 1), ("x", 1)])]) []
          [("x", 3), ("y", 1)] []) "A" "y"
        = .ok 0) :=
  ⟨claim_C4_amended "START" "STOP" ["A", "B"] [] [("x", 3), ("y", 1)]
      [("A", [("x", 2)]), ("B", [("y", 1), ("x", 1)])] [] []
      [[("", "START"), ("x", "A"), ("y", "B"), ("", "STOP")],
       [("", "START"), ("x", "A"), ("x", "B"), ("", "STOP")]] 1
      (by decide) "A" [("x", 2)] (by decide) "z",
    by decide,
    (claim_C4_amended "START" "STOP" ["A", "B"] [] [("x", 3), ("y", 1)]
      [("A", [("x", 2)]), ("B", [("y", 1), ("x", 1)])] [] []
      [[("", "START"), ("x", "A"), ("y", "B"), ("", "STOP")],
       [("", "START"), ("x", "A"), ("x", "B"), ("", "STOP")]] 1
      (by decide) "A" [("x", 2)] (by decide) "y").2.2 (by decide) (by decide) (by decide)⟩

/-! Structural lemmas about the transition estimator. -/

theorem transitionProbsOf_alookup (cnts : List (String × List (String × Nat))) (s : String) :
    alookup (transitionProbsOf cnts) s = (alookup cnts s).map (fun inner =>
      inner.map (fun tc => (tc.1, calculate_transition_mle tc.2 (sumVals inner)))) := by
  simpa using alookup_keyed_map cnts (fun _ inner =>
    inner.map (fun tc => (tc.1, calculate_transition_mle tc.2 (sumVals inner)))) s

/-- Every count stored in a nested count table is positive. -/
def innerPos (cnts : List (String × List (String × Nat))) : Prop :=
  ∀ s inner, alookup cnts s = some inner → ∀ t n, alookup inner t = some n → 0 < n

theorem innerPos_initCounts (ks : List String) : innerPos (initCounts ks) := by
  intro s inner hs t n ht
  rw [initCounts_alookup] at hs
  by_cases hmem : s ∈ ks
  · rw [if_pos hmem] at hs
    injection hs with hs
    subst hs
    cases ht
  · rw [if_neg hmem] at hs
    cases hs

theorem aincr_pos (inner : List (String × Nat)) (w : String)
    (hp : ∀ t n, alookup inner t = some n → 0 < n) :
    ∀ t n, alookup (aincr inner w) t = some n → 0 < n := by
  intro t n ht
  rw [alookup_aincr] at ht
  by_cases htw : t = w
  · rw [if_pos htw] at ht
    injection ht with ht
    omega
  · rw [if_neg htw] at ht
    exact hp t n ht

theorem transPairs_innerPos (ps : List (WSPair × WSPair))
    (cnts cnts' : List (String × List (String × Nat)))
    (h : transPairs cnts ps = .ok cnts') (hp : innerPos cnts) : innerPos cnts' := by
  induction ps generalizing cnts with
  | nil =>
    simp only [transPairs, Except.ok.injEq] at h
    rw [← h]
    exact hp
  | cons p ps ih =>
    rcases p with ⟨prev, curr⟩
    simp only [transPairs] at h
    cases hc : alookup cnts prev.2 with
    | none => rw [hc] at h; cases h
    | some inner =>
      rw [hc] at h
      refine ih _ h ?_
      intro s inner' hs t n ht
      rw [alookup_aset] at hs
      by_cases hsp : s = prev.2
      · rw [if_pos hsp] at hs
        injection hs with hs
        subst hs
        exact aincr_pos inner curr.2 (hp prev.2 inner hc) t n ht
      · rw [if_neg hsp] at hs
        exact hp s inner' hs t n ht

theorem transSeqs_innerPos (start stop : String) (seqs : List Seq)
    (cnts cnts' : List (String × List (String × Nat)))
    (h : transSeqs start stop cnts seqs = .ok cnts') (hp : innerPos cnts) : innerPos cnts' := by
  induction seqs generalizing cnts with
  | nil =>
    simp only [transSeqs, Except.ok.injEq] at h
    rw [← h]
    exact hp
  | cons q qs ih =>
    simp only [transSeqs] at h
    split at h
    · cases h
    · split at h
      · cases h
      · rename_i cnts2 heq
        exact ih _ h (transPairs_innerPos _ _ _ heq hp)

theorem transPairs_isSome (ps : List (WSPair × WSPair))
    (cnts cnts' : List (String × List (String × Nat)))
    (h : transPairs cnts ps = .ok cnts') (s : String) :
    (alookup cnts' s).isSome = (alookup cnts s).isSome := by
  induction ps generalizing cnts with
  | nil =>
    simp only [transPairs, Except.ok.injEq] at h
    rw [← h]
  | cons p ps ih =>
    rcases p with ⟨prev, curr⟩
    simp only [transPairs] at h
    cases hc : alookup cnts prev.2 with
    | none => rw [hc] at h; cases h
    | some inner =>
      rw [hc] at h
      rw [ih _ h, alookup_aset]
      by_cases hs : s = prev.2
      · subst hs; simp [hc]
      · simp [hs]

theorem transSeqs_isSome (start stop : String) (seqs : List Seq)
    (cnts cnts' : List (String × List (String × Nat)))
    (h : transSeqs start stop cnts seqs = .ok cnts') (s : String) :
    (alookup cnts' s).isSome = (alookup cnts s).isSome := by
  induction seqs generalizing cnts with
  | nil =>
    simp only [transSeqs, Except.ok.injEq] at h
    rw [← h]
  | cons q qs ih =>
    simp only [transSeqs] at h
    split at h
    · cases h
    · split at h
      · cases h
      · rename_i cnts2 heq
        rw [ih _ h, transPairs_isSome _ _ _ heq s]

/-- Claim C3: for every trained model and every source state (START or an
interior state) with total outgoing count `C`: the transition probability to a
successor observed `n` times is exactly `n / C` with no smoothing, the
probabilities over the successors actually observed sum to exactly 1, and the
transition-probability lookup returns exactly 0 for every never-observed
successor of that source state. -/
theorem claim_C3 (start stop : String) (states : List String)
    (cnts : List (String × List (String × Nat))) (obs : List Seq)
    (ep : List (String × List (String × ℚ))) (tw : List (String × Nat))
    (tc : List (String × List (String × Nat)))
    (h : transSeqs start stop (initCounts (start :: states)) obs = .ok cnts)
    (s : String) (inner : List (String × Nat)) (hs : alookup cnts s = some inner) :
    estimate_transition start stop states obs = .ok (cnts, transitionProbsOf cnts) ∧
    ∃ pinner, alookup (transitionProbsOf cnts) s = some pinner ∧
      (∀ t n, alookup inner t = some n →
        alookup pinner t = some (calculate_transition_mle n (sumVals inner))) ∧
      (inner ≠ [] → (pinner.map (·.2)).sum = 1) ∧
      (∀ t, alookup inner t = none →
        get_transition_probability
          (HMM.mk start stop states ep (transitionProbsOf cnts) tw tc) s t = .ok 0) := by
  have hpos : innerPos cnts := transSeqs_innerPos start stop obs _ cnts h
    (innerPos_initCounts (start :: states))
  refine ⟨by simp only [estimate_transition, h], ?_⟩
  refine ⟨_, by rw [transitionProbsOf_alookup, hs, Option.map_some'], ?_, ?_, ?_⟩
  · intro t n ht
    rw [alookup_keyed_map inner (fun _ n => calculate_transition_mle n (sumVals inner)) t, ht]
    rfl
  · intro hne
    have hCpos : 0 < sumVals inner := by
      obtain ⟨p, rest, hin⟩ : ∃ p rest, inner = p :: rest := by
        cases inner with
        | nil => exact absurd rfl hne
        | cons p rest => exact ⟨p, rest, rfl⟩
      have hp : 0 < p.2 := by
        refine hpos s inner hs p.1 p.2 ?_
        rw [hin, alookup, if_pos rfl]
      rw [hin, sumVals, List.map_cons, List.sum_cons]
      exact Nat.lt_of_lt_of_le hp (Nat.le_add_right _ _)
    rw [List.map_map]
    have : ((·.2) ∘ fun tc : String × Nat => (tc.1, calculate_transition_mle tc.2 (sumVals inner)))
        = fun tc : String × Nat => ((tc.2 : ℚ) / ((sumVals inner : ℕ) : ℚ)) := by
      funext tc
      rfl
    rw [this, sum_map_div inner (fun tc => (tc.2 : ℚ)) ((sumVals inner : ℕ) : ℚ)]
    have hnum : (inner.map (fun tc => (tc.2 : ℚ))).sum = ((sumVals inner : ℕ) : ℚ) := by
      rw [sumVals, Nat.cast_list_sum, List.map_map]
      rfl
    rw [hnum, div_self]
    exact Nat.cast_ne_zero.mpr (Nat.pos_iff_ne_zero.mp hCpos)
  · intro t ht
    rw [get_transition_probability]
    simp only [transitionProbsOf_alookup, hs, Option.map_some']
    rw [alookup_keyed_map inner (fun _ n => calculate_transition_mle n (sumVals inner)) t, ht]
    rfl

/-- Claim C3, witness: in the two-sequence corpus both `A → B` and `B → STOP`
are observed twice, so `P(A→B) = 2/2`, `A`'s observed successors sum to 1, and
the never-observed successor `STOP` of `A` gets exactly 0. -/
theorem claim_C3_witness :
    estimate_transition "START" "STOP" ["A", "B"]
        [[("", "START"), ("x", "A"), ("y", "B"), ("", "STOP")],
         [("", "START"), ("x", "A"), ("x", "B"), ("", "STOP")]]
      = .ok ([("START", [("A", 2)]), ("A", [("B", 2)]), ("B", [("STOP", 2)])],
          transitionProbsOf
            [("START", [("A", 2)]), ("A", [("B", 2)]), ("B", [("STOP", 2)])]) ∧
    ∃ pinner,
      alookup (transitionProbsOf
          [("START", [("A", 2)]), ("A", [("B", 2)]), ("B", [("STOP", 2)])]) "A"
        = some pinner ∧
      (∀ (t : String) (n : ℕ), alookup [("B", 2)] t = some n →
        alookup pinner t = some (calculate_transition_mle n (sumVals [("B", 2)]))) ∧
      (([("B", 2)] : List (String × Nat)) ≠ [] → (pinner.map (·.2)).sum = 1) ∧
      (∀ t, alookup ([("B", 2)] : List (String × Nat)) t = none →
        get_transition_probability
          (HMM.mk "START" "STOP" ["A", "B"] []
            (transitionProbsOf
              [("START", [("A", 2)]), ("A", [("B", 2)]), ("B", [("STOP", 2)])]) [] [])
          "A" t = .ok 0) :=
  claim_C3 "START" "STOP" ["A", "B"]
    [("START", [("A", 2)]), ("A", [("B", 2)]), ("B", [("STOP", 2)])]
    [[("", "START"), ("x", "A"), ("y", "B"), ("", "STOP")],
     [("", "START"), ("x", "A"), ("x", "B"), ("", "STOP")]] [] [] []
    (by decide) "A" [("B", 2)] (by decide)

/-! Claim C6: the naive decoder against the spec's description. -/

/-- Modelled from the spec's words (§4.5), for refinement comparison: the
label the naive decoder gives a token — among the states of the emission
table, with that exact token's raw probability (`.get(word, 0)`, no UNKNOWN
rerouting), the first state in the model's iteration order achieving the
maximum. -/
def specNaiveLabel (ep : List (String × List (String × ℚ))) (word : String) : String :=
  match wordProbs ep word with
  | [] => ""
  | p :: ps => ((((p :: ps).find? (fun q => decide (q.2 = maxVal p.2 ps))).map (·.1)).getD "")

/-- Modelled from the spec's words (§4.5), for refinement comparison: the
naive decoder's output — every non-sentinel token labelled independently by
`specNaiveLabel`, bounded by the START/STOP sentinels, the transition table
never consulted. -/
def specNaive (start stop : String) (ep : List (String × List (String × ℚ)))
    (seq : Seq) : Seq :=
  ("", start) ::
    ((seq.filter (fun ws => decide (¬(ws.2 = start ∨ ws.2 = stop)))).map
      (fun ws => (ws.1, specNaiveLabel ep ws.1))) ++ [("", stop)]

theorem argmax_emission_spec (m : HMM) (word : String) (h : m.emission_probs ≠ []) :
    argmax_emission m word = .ok (specNaiveLabel m.emission_probs word) := by
  cases hwp : wordProbs m.emission_probs word with
  | nil =>
    have : m.emission_probs = [] := by simpa [wordProbs] using hwp
    exact absurd this h
  | cons p ps =>
    have h1 : argmax_emission m word = .ok (pyMaxGo p ps).1 := by
      rw [argmax_emission, hwp]
    have h2 : specNaiveLabel m.emission_probs word
        = ((((p :: ps).find? (fun q => decide (q.2 = maxVal p.2 ps))).map (·.1)).getD "") := by
      rw [specNaiveLabel, hwp]
    rw [h1, h2, find?_pyMaxGo]
    rfl

theorem naiveLoop_spec (m : HMM) (h : m.emission_probs ≠ []) (seq : Seq) :
    naiveLoop m seq = .ok ((seq.filter
        (fun ws => decide (¬(ws.2 = m.start ∨ ws.2 = m.stop)))).map
      (fun ws => (ws.1, specNaiveLabel m.emission_probs ws.1))) := by
  induction seq with
  | nil => rfl
  | cons p rest ih =>
    rcases p with ⟨w, st⟩
    rw [naiveLoop]
    by_cases hst : st = m.start ∨ st = m.stop
    · rw [if_pos hst, ih, List.filter_cons]
      simp [hst]
    · rw [if_neg hst, argmax_emission_spec m w h, ih, List.filter_cons]
      simp [hst]

/-- Claim C6: the naive decoder labels each token of the sequence (skipping
the sentinel positions) with the first state in the model's iteration order
maximising the raw emission probability of that exact token (0 for a state
with no recorded occurrence, no UNKNOWN rerouting), and its output does not
depend on the transition table in any way. -/
theorem claim_C6 (m : HMM) (seq : Seq) (h : m.emission_probs ≠ []) :
    naive_label_sequence m seq = .ok (specNaive m.start m.stop m.emission_probs seq) ∧
    (∀ tp tc, naive_label_sequence
        (HMM.mk m.start m.stop m.states m.emission_probs tp m.training_words tc) seq
      = naive_label_sequence m seq) := by
  have hmain : ∀ m' : HMM, m'.start = m.start → m'.stop = m.stop →
      m'.emission_probs = m.emission_probs →
      naive_label_sequence m' seq = .ok (specNaive m.start m.stop m.emission_probs seq) := by
    intro m' h1 h2 h3
    rw [naive_label_sequence, if_neg (h3 ▸ h), naiveLoop_spec m' (h3 ▸ h) seq, specNaive,
      h1, h2, h3]
    rfl
  refine ⟨hmain m rfl rfl rfl, ?_⟩
  intro tp tc
  rw [hmain (HMM.mk m.start m.stop m.states m.emission_probs tp m.training_words tc) rfl rfl rfl,
    hmain m rfl rfl rfl]

/-- Claim C6, witness: in the two-sequence-corpus model, `x` is emitted by
both `A` (2/3) and `B` (1/3); the naive decoder labels `x x` as `A A`,
ignoring the transition table (under which `A → A` was never observed). -/
theorem claim_C6_witness :
    (HMM.mk "START" "STOP" ["A", "B"]
        (emissionProbsOf 1 [("A", [("x", 2)]), ("B", [("y", 1), ("x", 1)])]) []
        [("x", 3), ("y", 1)] []).emission_probs ≠ [] ∧
    naive_label_sequence
        (HMM.mk "START" "STOP" ["A", "B"]
          (emissionProbsOf 1 [("A", [("x", 2)]), ("B", [("y", 1), ("x", 1)])]) []
          [("x", 3), ("y", 1)] [])
        [("", "START"), ("x", ""), ("x", ""), ("", "STOP")]
      = .ok (specNaive "START" "STOP"
          (emissionProbsOf 1 [("A", [("x", 2)]), ("B", [("y", 1), ("x", 1)])])
          [("", "START"), ("x", ""), ("x", ""), ("", "STOP")]) ∧
    specNaive "START" "STOP"
        (emissionProbsOf 1 [("A", [("x", 2)]), ("B", [("y", 1), ("x", 1)])])
        [("", "START"), ("x", ""), ("x", ""), ("", "STOP")]
      = [("", "START"), ("x", "A"), ("x", "A"), ("", "STOP")] :=
  ⟨by decide,
    (claim_C6 (HMM.mk "START" "STOP" ["A", "B"]
        (emissionProbsOf 1 [("A", [("x", 2)]), ("B", [("y", 1), ("x", 1)])]) []
        [("x", 3), ("y", 1)] [])
      [("", "START"), ("x", ""), ("x", ""), ("", "STOP")] (by decide)).1,
    by decide⟩

/-! Claim C7: the boundary check and its callers. -/

/-- Claim C7, counterexample to the original statement: the naive decoder
(`naive_label_sequence`, cited as one of "the decoder(s)") performs no
boundary check: on the sequence `[("x", "")]`, whose first state `""` is not
START and whose last state is not STOP, it completes successfully instead of
signalling a boundary-integrity error. -/
theorem claim_C7_counterexample :
    ("" : String) ≠ "START" ∧
    naive_label_sequence
        (HMM.mk "START" "STOP" ["A", "B"]
          (emissionProbsOf 1 [("A", [("x", 2)]), ("B", [("y", 1), ("x", 1)])]) []
          [("x", 3), ("y", 1)] [])
        [("x", "")]
      = .ok [("", "START"), ("x", "A"), ("", "STOP")] := by
  refine ⟨by decide, by decide⟩

/-- Claim C7 (amended): for every sequence whose first state is not START or
whose last state is not STOP, the shared check `_check_end_states` signals a
boundary-integrity error, and the emission estimator, the transition
estimator, and the Viterbi decoder all propagate exactly that error before
using the sequence; the naive decoder does not invoke the check. -/
theorem claim_C7_amended (m : HMM) (seq : Seq) (tw0 : List (String × Nat)) (k c : ℚ)
    (hne : seq ≠ [])
    (hbad : (seq.head hne).2 ≠ m.start ∨ (seq.getLast hne).2 ≠ m.stop) :
    ∃ e, isBoundaryErr e = true ∧
      check_end_states m.start m.stop seq = .error e ∧
      estimate_emission m.start m.stop m.states tw0 [seq] k = .error e ∧
      estimate_transition m.start m.stop m.states [seq] = .error e ∧
      viterbi m seq c = .error e := by
  have hch : ∃ e, isBoundaryErr e = true ∧ check_end_states m.start m.stop seq = .error e := by
    obtain ⟨first, rest, rfl⟩ : ∃ first rest, seq = first :: rest := by
      cases seq with
      | nil => exact absurd rfl hne
      | cons first rest => exact ⟨first, rest, rfl⟩
    rw [check_end_states]
    simp only [List.head?_cons]
    by_cases h1 : first.2 ≠ m.start
    · exact ⟨.invalidStart first.2, rfl, by rw [if_pos h1]⟩
    · rw [if_neg h1]
      have h2 : ((first :: rest).getLast hne).2 ≠ m.stop := by
        cases hbad with
        | inl hb => exact absurd (by simpa [List.head_cons] using hb) (fun hc => h1 hc)
        | inr hb => exact hb
      rw [List.getLast?_eq_getLast _ hne]
      exact ⟨.invalidStop ((first :: rest).getLast hne).2, rfl, by simp [h2]⟩
  obtain ⟨e, hbe, hch⟩ := hch
  refine ⟨e, hbe, hch, ?_, ?_, ?_⟩
  · simp only [estimate_emission, emitSeqs, hch]
  · simp only [estimate_transition, transSeqs, hch]
  · simp only [viterbi, hch]

/-- Claim C7, witness for the amended theorem: on `[("x", "")]` the check and
all three check-invoking operations fail with the invalid-start boundary
error. -/
theorem claim_C7_witness :
    (([("x", "")] : Seq) ≠ [] ∧
      (("x", "").2 ≠ "START" ∨ ("x", "").2 ≠ "STOP")) ∧
    ∃ e, isBoundaryErr e = true ∧
      check_end_states "START" "STOP" [("x", "")] = .error e ∧
      estimate_emission "START" "STOP" ["A", "B"] [] [[("x", "")]] 1 = .error e ∧
      estimate_transition "START" "STOP" ["A", "B"] [[("x", "")]] = .error e ∧
      viterbi (HMM.mk "START" "STOP" ["A", "B"] [] [] [] []) [("x", "")] 100 = .error e :=
  ⟨⟨by decide, Or.inl (by decide)⟩,
    claim_C7_amended (HMM.mk "START" "STOP" ["A", "B"] [] [] [] []) [("x", "")] [] 1 100
      (by decide) (Or.inl (by decide))⟩

/-! Claim C8: retraining is idempotent on the probability tables. -/

theorem emitPairs_snd (start stop : String) (states : List String) (ps : List WSPair)
    (tw1 tw2 : List (String × Nat)) (cnts : List (String × List (String × Nat))) :
    (emitPairs start stop states tw1 cnts ps).map Prod.snd
      = (emitPairs start stop states tw2 cnts ps).map Prod.snd := by
  induction ps generalizing tw1 tw2 cnts with
  | nil => rfl
  | cons p ps ih =>
    rcases p with ⟨w, st⟩
    by_cases h1 : st = start ∨ st = stop
    · simp only [emitPairs, if_pos h1]
      exact ih _ _ _
    · by_cases h2 : st ∈ states
      · simp only [emitPairs, if_neg h1, if_pos h2]
        cases hc : alookup cnts st with
        | none => rfl
        | some inner => exact ih _ _ _
      · simp only [emitPairs, if_neg h1, if_neg h2]

theorem emitSeqs_snd (start stop : String) (states : List String) (seqs : List Seq)
    (tw1 tw2 : List (String × Nat)) (cnts : List (String × List (String × Nat))) :
    (emitSeqs start stop states tw1 cnts seqs).map Prod.snd
      = (emitSeqs start stop states tw2 cnts seqs).map Prod.snd := by
  induction seqs generalizing tw1 tw2 cnts with
  | nil => rfl
  | cons q qs ih =>
    simp only [emitSeqs]
    cases hck : check_end_states start stop q with
    | error e => rfl
    | ok u =>
      have hq := emitPairs_snd start stop states q tw1 tw2 cnts
      cases h1 : emitPairs start stop states tw1 cnts q with
      | error e =>
        cases h2 : emitPairs start stop states tw2 cnts q with
        | error e2 =>
          rw [h1, h2] at hq
          simp only [Except.map] at hq
          injection hq with hq
          rw [hq]
        | ok r2 =>
          rw [h1, h2] at hq
          simp only [Except.map] at hq
          cases hq
      | ok r1 =>
        cases h2 : emitPairs start stop states tw2 cnts q with
        | error e2 =>
          rw [h1, h2] at hq
          simp only [Except.map] at hq
          cases hq
        | ok r2 =>
          rw [h1, h2] at hq
          simp only [Except.map] at hq
          injection hq with hq
          rcases r1 with ⟨tw1', cnts1'⟩
          rcases r2 with ⟨tw2', cnts2'⟩
          simp only at hq
          rw [hq]
          exact ih _ _ _

theorem estimate_emission_snd (start stop : String) (states : List String)
    (obs : List Seq) (tw1 tw2 : List (String × Nat)) (k : ℚ) :
    (estimate_emission start stop states tw1 obs k).map Prod.snd
      = (estimate_emission start stop states tw2 obs k).map Prod.snd := by
  have h := emitSeqs_snd start stop states obs tw1 tw2 (initCounts states)
  rw [estimate_emission, estimate_emission]
  cases h1 : emitSeqs start stop states tw1 (initCounts states) obs with
  | error e =>
    cases h2 : emitSeqs start stop states tw2 (initCounts states) obs with
    | error e2 =>
      rw [h1, h2] at h
      simp only [Except.map] at h
      injection h with h
      rw [h]
    | ok r2 =>
      rw [h1, h2] at h
      simp only [Except.map] at h
      cases h
  | ok r1 =>
    cases h2 : emitSeqs start stop states tw2 (initCounts states) obs with
    | error e2 =>
      rw [h1, h2] at h
      simp only [Except.map] at h
      cases h
    | ok r2 =>
      rw [h1, h2] at h
      simp only [Except.map] at h
      injection h with h
      rcases r1 with ⟨tw1', cnts1'⟩
      rcases r2 with ⟨tw2', cnts2'⟩
      simp only at h
      simp only [Except.map, h]

/-- Claim C8: training twice in succession on the same corpus yields exactly
the same emission and transition tables as a single training (the estimates
are recomputed from scratch; only the accumulated `training_words` counts
differ). -/
theorem claim_C8 (m m1 : HMM) (obs : List Seq) (h : train m obs = .ok m1) :
    ∃ m2, train m1 obs = .ok m2 ∧ m2.emission_probs = m1.emission_probs ∧
      m2.transition_probs = m1.transition_probs := by
  rw [train] at h
  cases he : estimate_emission m.start m.stop m.states m.training_words obs 1 with
  | error e => rw [he] at h; cases h
  | ok r =>
    rcases r with ⟨tw, ep⟩
    rw [he] at h
    cases ht : estimate_transition m.start m.stop m.states obs with
    | error e => rw [ht] at h; cases h
    | ok r2 =>
      rcases r2 with ⟨tc, tp⟩
      rw [ht] at h
      injection h with h
      subst h
      have hsnd := estimate_emission_snd m.start m.stop m.states obs tw m.training_words 1
      rw [he] at hsnd
      cases he2 : estimate_emission m.start m.stop m.states tw obs 1 with
      | error e =>
        rw [he2] at hsnd
        simp only [Except.map] at hsnd
        cases hsnd
      | ok r3 =>
        rcases r3 with ⟨tw2, ep2⟩
        rw [he2] at hsnd
        simp only [Except.map] at hsnd
        injection hsnd with hsnd
        refine ⟨HMM.mk m.start m.stop m.states ep2 tp tw2 tc, ?_, by simpa using hsnd, rfl⟩
        rw [train]
        simp only [he2, ht]

/-- Claim C8, witness: retraining the two-sequence-corpus model leaves both
probability tables unchanged. -/
theorem claim_C8_witness :
    ∃ m2, train (HMM.mk "START" "STOP" ["A", "B"]
        (emissionProbsOf 1 [("A", [("x", 2)]), ("B", [("y", 1), ("x", 1)])])
        (transitionProbsOf [("START", [("A", 2)]), ("A", [("B", 2)]), ("B", [("STOP", 2)])])
        [("x", 3), ("y", 1)]
        [("START", [("A", 2)]), ("A", [("B", 2)]), ("B", [("STOP", 2)])])
      [[("", "START"), ("x", "A"), ("y", "B"), ("", "STOP")],
       [("", "START"), ("x", "A"), ("x", "B"), ("", "STOP")]] = .ok m2 ∧
      m2.emission_probs = (HMM.mk "START" "STOP" ["A", "B"]
        (emissionProbsOf 1 [("A", [("x", 2)]), ("B", [("y", 1), ("x", 1)])])
        (transitionProbsOf [("START", [("A", 2)]), ("A", [("B", 2)]), ("B", [("STOP", 2)])])
        [("x", 3), ("y", 1)]
        [("START", [("A", 2)]), ("A", [("B", 2)]), ("B", [("STOP", 2)])]).emission_probs ∧
      m2.transition_probs = (HMM.mk "START" "STOP" ["A", "B"]
        (emissionProbsOf 1 [("A", [("x", 2)]), ("B", [("y", 1), ("x", 1)])])
        (transitionProbsOf [("START", [("A", 2)]), ("A", [("B", 2)]), ("B", [("STOP", 2)])])
        [("x", 3), ("y", 1)]
        [("START", [("A", 2)]), ("A", [("B", 2)]), ("B", [("STOP", 2)])]).transition_probs :=
  claim_C8 (HMM.mk "START" "STOP" ["A", "B"] [] [] [] [])
    (HMM.mk "START" "STOP" ["A", "B"]
      (emissionProbsOf 1 [("A", [("x", 2)]), ("B", [("y", 1), ("x", 1)])])
      (transitionProbsOf [("START", [("A", 2)]), ("A", [("B", 2)]), ("B", [("STOP", 2)])])
      [("x", 3), ("y", 1)]
      [("START", [("A", 2)]), ("A", [("B", 2)]), ("B", [("STOP", 2)])])
    [[("", "START"), ("x", "A"), ("y", "B"), ("", "STOP")],
     [("", "START"), ("x", "A"), ("x", "B"), ("", "STOP")]]
    (by decide)

/-! Claim C9: Viterbi on a token-free sequence fails at the STOP emission
lookup. -/

theorem viterbi_label_no_tokens (st sp : String) (states : List String)
    (ep tp : List (String × List (String × ℚ))) (tw : List (String × Nat))
    (tc : List (String × List (String × Nat))) (c : ℚ)
    (pinner : List (String × ℚ))
    (htp : alookup tp st = some pinner)
    (hep : alookup ep sp = none) :
    viterbi_label (HMM.mk st sp states ep tp tw tc) [("", st), ("", sp)] c
      = .error (.keyError sp) := by
  have hbeta : ∀ word, get_emission_probability (HMM.mk st sp states ep tp tw tc) sp word
      = .error (.keyError sp) := by
    intro word
    rw [get_emission_probability]
    cases htw : (alookup tw word).isSome <;> simp [htw, hep]
  have hdp : dp_helper (HMM.mk st sp states ep tp tw tc) ((1 : ℕ) : ℤ) sp
      [("", st), ("", sp)] [(1, [])] c = .error (.keyError sp) := by
    rw [dp_helper]
    rw [if_neg (by norm_num), if_pos (by simp)]
    have htn : ((1 : ℕ) : ℤ).toNat = 1 := rfl
    simp only [htn, if_pos rfl]
    rw [get_transition_probability]
    simp only [htp, hbeta]
    simp
  have hck : check_end_states st sp [("", st), ("", sp)] = .ok () := by
    rw [check_end_states]
    simp
  have hvit : viterbi (HMM.mk st sp states ep tp tw tc) [("", st), ("", sp)] c
      = .error (.keyError sp) := by
    rw [viterbi, hck]
    have hr : List.range' 1 (([("", st), ("", sp)] : Seq).length - 1) = [1] := rfl
    rw [hr, List.map_cons, List.map_nil, viterbiIter,
      if_pos (by simp), hdp]
  rw [viterbi_label, hvit]

/-- Claim C9: for an inference sequence with no tokens (just the START and
STOP sentinels), Viterbi decoding of a trained model whose STOP state is not
among the interior states does not produce an (empty) label sequence: the
single time step is the base case with STOP as the target, the emission lookup
for STOP hits a state absent from the emission table, and the whole decode
fails with that KeyError. -/
theorem claim_C9 (m tm : HMM) (obs : List Seq) (c : ℚ)
    (h : train m obs = .ok tm) (hss : m.stop ∉ m.states) :
    viterbi_label tm [("", m.start), ("", m.stop)] c = .error (.keyError m.stop) := by
  rw [train] at h
  cases he : estimate_emission m.start m.stop m.states m.training_words obs 1 with
  | error e => rw [he] at h; cases h
  | ok r =>
    rcases r with ⟨tw, ep⟩
    rw [he] at h
    cases ht : estimate_transition m.start m.stop m.states obs with
    | error e => rw [ht] at h; cases h
    | ok r2 =>
      rcases r2 with ⟨tc, tp⟩
      rw [ht] at h
      injection h with h
      subst h
      have hep : alookup ep m.stop = none := by
        rw [estimate_emission] at he
        cases hemit : emitSeqs m.start m.stop m.states m.training_words
            (initCounts m.states) obs with
        | error e => rw [hemit] at he; cases he
        | ok rr =>
          rcases rr with ⟨tw1, cnts⟩
          rw [hemit] at he
          injection he with he
          injection he with he1 he2
          have hns : (alookup cnts m.stop).isSome = false := by
            rw [emitSeqs_isSome m.start m.stop m.states obs _ _ _ _ hemit m.stop,
              initCounts_alookup, if_neg hss]
            rfl
          cases hc : alookup cnts m.stop with
          | some inner => rw [hc] at hns; cases hns
          | none =>
            rw [← he2, emissionProbsOf_alookup, hc]
            rfl
      have htp : ∃ pinner, alookup tp m.start = some pinner := by
        rw [estimate_transition] at ht
        cases htr : transSeqs m.start m.stop (initCounts (m.start :: m.states)) obs with
        | error e => rw [htr] at ht; cases ht
        | ok cnts =>
          rw [htr] at ht
          injection ht with ht
          injection ht with ht1 ht2
          have hss2 : (alookup cnts m.start).isSome = true := by
            rw [transSeqs_isSome m.start m.stop obs _ _ htr m.start, initCounts_alookup,
              if_pos (List.mem_cons_self _ _)]
            rfl
          cases hc : alookup cnts m.start with
          | none => rw [hc] at hss2; cases hss2
          | some inner =>
            rw [← ht2, transitionProbsOf_alookup, hc, Option.map_some']
            exact ⟨_, rfl⟩
      obtain ⟨pinner, htp⟩ := htp
      exact viterbi_label_no_tokens m.start m.stop m.states ep tp tw tc c pinner htp hep

/-- Claim C9, witness: the model trained on the two-sequence corpus fails with
`KeyError "STOP"` when asked to decode the token-free sequence. -/
theorem claim_C9_witness :
    viterbi_label
        (HMM.mk "START" "STOP" ["A", "B"]
          (emissionProbsOf 1 [("A", [("x", 2)]), ("B", [("y", 1), ("x", 1)])])
          (transitionProbsOf [("START", [("A", 2)]), ("A", [("B", 2)]), ("B", [("STOP", 2)])])
          [("x", 3), ("y", 1)]
          [("START", [("A", 2)]), ("A", [("B", 2)]), ("B", [("STOP", 2)])])
        [("", "START"), ("", "STOP")] 100
      = .error (.keyError "STOP") :=
  claim_C9 (HMM.mk "START" "STOP" ["A", "B"] [] [] [] [])
    (HMM.mk "START" "STOP" ["A", "B"]
      (emissionProbsOf 1 [("A", [("x", 2)]), ("B", [("y", 1), ("x", 1)])])
      (transitionProbsOf [("START", [("A", 2)]), ("A", [("B", 2)]), ("B", [("STOP", 2)])])
      [("x", 3), ("y", 1)]
      [("START", [("A", 2)]), ("A", [("B", 2)]), ("B", [("STOP", 2)])])
    [[("", "START"), ("x", "A"), ("y", "B"), ("", "STOP")],
     [("", "START"), ("x", "A"), ("x", "B"), ("", "STOP")]] 100
    (by decide) (by decide)

/-! Claim C5: the InvalidArgumentError range of `_dp_helper`. -/

theorem isInvalidArgumentErr_get_transition (m : HMM) (a b : String) (e : Err)
    (h : get_transition_probability m a b = .error e) : isInvalidArgumentErr e = false := by
  rw [get_transition_probability] at h
  cases hc : alookup m.transition_probs a with
  | none =>
    rw [hc] at h
    injection h with h
    rw [← h]
    rfl
  | some inner => rw [hc] at h; cases h

theorem isInvalidArgumentErr_get_emission (m : HMM) (a b : String) (e : Err)
    (h : get_emission_probability m a b = .error e) : isInvalidArgumentErr e = false := by
  rw [get_emission_probability] at h
  split at h
  · split at h
    · injection h with h; rw [← h]; rfl
    · cases h
  · split at h
    · injection h with h; rw [← h]; rfl
    · split at h
      · injection h with h; rw [← h]; rfl
      · cases h

theorem isInvalidArgumentErr_tempNodes (m : HMM) (g : Graph) (iprev : Nat)
    (curr word : String) (final : Bool) (c : ℚ) :
    ∀ (sts : List String) (e : Err), tempNodes m g iprev curr word final c sts = .error e →
      isInvalidArgumentErr e = false := by
  intro sts
  induction sts with
  | nil => intro e h; cases h
  | cons s sts ih =>
    intro e h
    rw [tempNodes] at h
    split at h
    · injection h with h; rw [← h]; rfl
    · split at h
      · injection h with h; rw [← h]; rfl
      · split at h
        · rename_i e2 ht
          injection h with h
          rw [← h]
          exact isInvalidArgumentErr_get_transition m s curr e2 ht
        · split at h
          · rename_i e3 hb
            injection h with h
            rw [← h]
            cases hfin : final
            · rw [hfin] at hb
              simp only [Bool.false_eq_true, if_false] at hb
              exact isInvalidArgumentErr_get_emission m curr word e3 hb
            · rw [hfin] at hb
              simp only [if_true] at hb
              cases hb
          · split at h
            · rename_i e4 hrec
              injection h with h
              rw [← h]
              exact ih e4 hrec
            · cases h

/-- Claim C5 (amended): `_dp_helper` signals an InvalidArgumentError exactly
when the time step lies outside `[1, L)` for a length-`L` sequence (the code
accepts the final step `L-1`, where the spec's interval `[1, L-1)` would
reject it) or the target state lies outside the interior states together with
STOP; inside those ranges it never signals this error (any failure there is a
KeyError or ValueError, not an InvalidArgumentError). -/
theorem claim_C5_amended (m : HMM) (it : ℤ) (curr : String) (seq : Seq)
    (g : Graph) (c : ℚ) :
    signalsInvalidArgument (dp_helper m it curr seq g c) = true ↔
      (it < 1 ∨ (seq.length : ℤ) ≤ it ∨ curr ∉ m.states ++ [m.stop]) := by
  rw [dp_helper]
  by_cases h1 : it < 1 ∨ (seq.length : ℤ) ≤ it
  · rw [if_pos h1]
    simp only [signalsInvalidArgument, isInvalidArgumentErr, true_iff]
    tauto
  · rw [if_neg h1]
    by_cases h2 : curr ∈ m.states ++ [m.stop]
    · rw [if_pos h2]
      constructor
      · intro hs
        exfalso
        simp only [] at hs
        by_cases hi : it.toNat = 1
        · rw [if_pos hi] at hs
          cases ht : get_transition_probability m m.start curr with
          | error e =>
            rw [ht] at hs
            simp only [signalsInvalidArgument,
              isInvalidArgumentErr_get_transition m m.start curr e ht] at hs
            exact Bool.false_ne_true hs
          | ok alpha =>
            rw [ht] at hs
            cases hb : get_emission_probability m curr
                (process_unknown_word m (seq.getD it.toNat ("", "")).1) with
            | error e =>
              rw [hb] at hs
              simp only [signalsInvalidArgument,
                isInvalidArgumentErr_get_emission m curr _ e hb] at hs
              exact Bool.false_ne_true hs
            | ok beta =>
              rw [hb] at hs
              cases hg : alookup g it.toNat with
              | none => rw [hg] at hs; simp [signalsInvalidArgument, isInvalidArgumentErr] at hs
              | some layer => rw [hg] at hs; simp [signalsInvalidArgument] at hs
        · rw [if_neg hi] at hs
          cases htn : tempNodes m g (it.toNat - 1) curr
              (process_unknown_word m (seq.getD it.toNat ("", "")).1)
              (decide (it.toNat = seq.length - 1)) c m.states with
          | error e =>
            rw [htn] at hs
            simp only [signalsInvalidArgument,
              isInvalidArgumentErr_tempNodes m g (it.toNat - 1) curr _ _ c m.states e htn] at hs
            exact Bool.false_ne_true hs
          | ok nodes =>
            rw [htn] at hs
            cases nodes with
            | nil => simp [signalsInvalidArgument, isInvalidArgumentErr] at hs
            | cons n ns =>
              cases hg : alookup g it.toNat with
              | none => rw [hg] at hs; simp [signalsInvalidArgument, isInvalidArgumentErr] at hs
              | some layer => rw [hg] at hs; simp [signalsInvalidArgument] at hs
      · intro hor
        rcases hor with hlt | hge | hmem
        · exact absurd (Or.inl hlt) h1
        · exact absurd (Or.inr hge) h1
        · exact absurd h2 hmem
    · rw [if_neg h2]
      simp only [signalsInvalidArgument, isInvalidArgumentErr, true_iff]
      tauto

/-- Claim C5, counterexample to the original statement: a length-3 sequence
(`L = 3`), time step `2 = L - 1`, which is outside the spec's interval
`[1, L-1) = [1, 2)`, target state STOP: the claim requires an
InvalidArgumentError, but `_dp_helper` runs the final-case branch and
completes without signalling it. -/
theorem claim_C5_counterexample :
    ¬ ((2 : ℤ) < 1) ∧ ((2 : ℤ) ≥ (([("", "START"), ("x", ""), ("", "STOP")] : Seq).length : ℤ) - 1) ∧
    "STOP" ∈ (HMM.mk "START" "STOP" ["A"]
        [("A", [("x", 1/2), ("#UNK#", 1/2)])]
        [("START", [("A", 1)]), ("A", [("STOP", 1)])] [("x", 1)] []).states ++
      [(HMM.mk "START" "STOP" ["A"]
        [("A", [("x", 1/2), ("#UNK#", 1/2)])]
        [("START", [("A", 1)]), ("A", [("STOP", 1)])] [("x", 1)] []).stop] ∧
    signalsInvalidArgument
      (dp_helper
        (HMM.mk "START" "STOP" ["A"]
          [("A", [("x", 1/2), ("#UNK#", 1/2)])]
          [("START", [("A", 1)]), ("A", [("STOP", 1)])] [("x", 1)] [])
        2 "STOP" [("", "START"), ("x", ""), ("", "STOP")]
        [(1, [("A", ("START", 1/2))]), (2, [])] 1) = false := by
  refine ⟨by norm_num, by norm_num, by decide, by decide⟩

/-! Claim C2: invariance of the decoded labels under the scaling constant. -/

theorem aset_keyed_map [DecidableEq α] (l : List (α × β)) (f : α → β → γ) (k : α) (v : β) :
    (aset l k v).map (fun p => (p.1, f p.1 p.2))
      = aset (l.map (fun p => (p.1, f p.1 p.2))) k (f k v) := by
  induction l with
  | nil => simp [aset]
  | cons p rest ih =>
    rcases p with ⟨k', v'⟩
    by_cases hk : k' = k
    · subst hk
      simp [aset]
    · simp [aset, hk, ih]

theorem alookup_scaleGraph (t : ℚ) (g : Graph) (i : Nat) :
    alookup (scaleGraph t g) i = (alookup g i).map (scaleLayer t i) := by
  simpa [scaleGraph] using alookup_keyed_map g (fun j layer => scaleLayer t j layer) i

theorem alookup_scaleLayer (t : ℚ) (i : Nat) (layer : Layer) (s : String) :
    alookup (scaleLayer t i layer) s
      = (alookup layer s).map (fun n => (n.1, n.2 * t ^ i)) := by
  simpa [scaleLayer] using
    alookup_keyed_map layer (fun _ n => (n.1, n.2 * t ^ i)) s

theorem scaleGraph_aset (t : ℚ) (g : Graph) (i : Nat) (layer : Layer) :
    scaleGraph t (aset g i layer) = aset (scaleGraph t g) i (scaleLayer t i layer) := by
  simpa [scaleGraph] using aset_keyed_map g (fun j l => scaleLayer t j l) i layer

theorem scaleLayer_aset (t : ℚ) (i : Nat) (layer : Layer) (s : String) (n : String × ℚ) :
    scaleLayer t i (aset layer s n)
      = aset (scaleLayer t i layer) s (n.1, n.2 * t ^ i) := by
  simpa [scaleLayer] using
    aset_keyed_map layer (fun (_ : String) (n : String × ℚ) => (n.1, n.2 * t ^ i)) s n

theorem tempNodes_scale (m : HMM) (g : Graph) (iprev : Nat) (curr word : String)
    (final : Bool) (c t : ℚ) (sts : List String) :
    tempNodes m (scaleGraph t g) iprev curr word final (c * t) sts
      = (tempNodes m g iprev curr word final c sts).map
          (List.map (fun p : String × ℚ => (p.1, p.2 * t ^ (iprev + 1)))) := by
  induction sts with
  | nil => rfl
  | cons s sts ih =>
    rw [tempNodes, tempNodes, alookup_scaleGraph]
    cases hg : alookup g iprev with
    | none => rfl
    | some prevLayer =>
      simp only [Option.map_some', alookup_scaleLayer]
      cases hn : alookup prevLayer s with
      | none => rfl
      | some node =>
        simp only [Option.map_some']
        cases ht : get_transition_probability m s curr with
        | error e => rfl
        | ok alpha =>
          cases hb : (if final then (.ok 1 : Except Err ℚ)
              else get_emission_probability m curr word) with
          | error e => rfl
          | ok beta =>
            rw [ih]
            cases hrec : tempNodes m g iprev curr word final c sts with
            | error e => rfl
            | ok nodes =>
              simp only [Except.map, List.map_cons]
              congr 2
              ring_nf

theorem dp_helper_scale (m : HMM) (it : ℤ) (curr : String) (seq : Seq)
    (g : Graph) (c t : ℚ) (ht : 0 < t) :
    dp_helper m it curr seq (scaleGraph t g) (c * t)
      = (dp_helper m it curr seq g c).map (scaleGraph t) := by
  rw [dp_helper, dp_helper]
  by_cases h1 : it < 1 ∨ (seq.length : ℤ) ≤ it
  · rw [if_pos h1, if_pos h1]
    rfl
  · rw [if_neg h1, if_neg h1]
    by_cases h2 : curr ∈ m.states ++ [m.stop]
    · rw [if_pos h2, if_pos h2]
      by_cases hi : it.toNat = 1
      · rw [if_pos hi, if_pos hi]
        cases hgt : get_transition_probability m m.start curr with
        | error e => rfl
        | ok alpha =>
          cases hge : get_emission_probability m curr
              (process_unknown_word m (seq.getD it.toNat ("", "")).1) with
          | error e => rfl
          | ok beta =>
            rw [alookup_scaleGraph]
            cases hg : alookup g it.toNat with
            | none => rfl
            | some layer =>
              simp only [Option.map_some', Except.map]
              rw [scaleGraph_aset, scaleLayer_aset, hi, pow_one]
              have hval : alpha * beta * (c * t) = alpha * beta * c * t := by ring
              rw [hval]
      · rw [if_neg hi, if_neg hi]
        have hiprev : it.toNat - 1 + 1 = it.toNat := by
          push_neg at h1
          omega
        rw [tempNodes_scale, hiprev]
        cases htn : tempNodes m g (it.toNat - 1) curr
            (process_unknown_word m (seq.getD it.toNat ("", "")).1)
            (decide (it.toNat = seq.length - 1)) c m.states with
        | error e => rfl
        | ok nodes =>
          cases nodes with
          | nil => rfl
          | cons n ns =>
            simp only [Except.map, List.map_cons]
            rw [show ((n.1, n.2 * t ^ it.toNat) : String × ℚ)
                = (n.1, n.2 * t ^ it.toNat) from rfl,
              pyMaxGo_scale (t ^ it.toNat) (pow_pos ht _) n ns]
            rw [alookup_scaleGraph]
            cases hg : alookup g it.toNat with
            | none => rfl
            | some layer =>
              simp only [Option.map_some']
              rw [scaleGraph_aset, scaleLayer_aset]
    · rw [if_neg h2, if_neg h2]
      rfl

theorem dpStates_scale (m : HMM) (i : Nat) (seq : Seq) (c t : ℚ) (ht : 0 < t)
    (sts : List String) (g : Graph) :
    dpStates m i seq (c * t) sts (scaleGraph t g)
      = (dpStates m i seq c sts g).map (scaleGraph t) := by
  induction sts generalizing g with
  | nil => rfl
  | cons s sts ih =>
    rw [dpStates, dpStates, dp_helper_scale m (i : ℤ) s seq g c t ht]
    cases hd : dp_helper m (i : ℤ) s seq g c with
    | error e => rfl
    | ok g' => exact ih g'

theorem viterbiIter_scale (m : HMM) (seq : Seq) (c t : ℚ) (ht : 0 < t)
    (l : List Nat) (g : Graph) :
    viterbiIter m seq (c * t) l (scaleGraph t g)
      = (viterbiIter m seq c l g).map (scaleGraph t) := by
  induction l generalizing g with
  | nil => rfl
  | cons i rest ih =>
    rw [viterbiIter, viterbiIter]
    by_cases hil : i = seq.length - 1
    · rw [if_pos hil, if_pos hil, dp_helper_scale m (i : ℤ) m.stop seq g c t ht]
      cases hd : dp_helper m (i : ℤ) m.stop seq g c with
      | error e => rfl
      | ok g' => exact ih g'
    · rw [if_neg hil, if_neg hil, dpStates_scale m i seq c t ht m.states g]
      cases hd : dpStates m i seq c m.states g with
      | error e => rfl
      | ok g' => exact ih g'

theorem viterbi_scale (m : HMM) (seq : Seq) (c t : ℚ) (ht : 0 < t) :
    viterbi m seq (c * t) = (viterbi m seq c).map (scaleGraph t) := by
  rw [viterbi, viterbi]
  cases hck : check_end_states m.start m.stop seq with
  | error e => rfl
  | ok u =>
    have hg0 : ((List.range' 1 (seq.length - 1)).map (fun i => (i, ([] : Layer))))
        = scaleGraph t ((List.range' 1 (seq.length - 1)).map (fun i => (i, ([] : Layer)))) := by
      simp [scaleGraph, scaleLayer, List.map_map, Function.comp]
    conv_lhs => rw [hg0]
    exact viterbiIter_scale m seq c t ht _ _

theorem backtraceLoop_scale (t : ℚ) (g : Graph) (seq : Seq) (idxs : List Nat) (acc : Seq) :
    backtraceLoop (scaleGraph t g) seq idxs acc = backtraceLoop g seq idxs acc := by
  induction idxs generalizing acc with
  | nil => rfl
  | cons i rest ih =>
    rw [backtraceLoop, backtraceLoop, alookup_scaleGraph]
    cases hg : alookup g (i + 1) with
    | none => rfl
    | some layer =>
      simp only [Option.map_some', alookup_scaleLayer]
      cases hn : alookup layer (acc.headD ("", "")).2 with
      | none => rfl
      | some node =>
        simp only [Option.map_some']
        exact ih _

/-- Claim C2: for every model, inference sequence and positive scaling
constants `c1`, `c2`, the Viterbi decode (backpointer reconstruction
included) yields the same labelled sequence, because the graph built with
`c2` is the graph built with `c1` with every layer-`i` score multiplied by
`(c2/c1)^i` and every backpointer unchanged. -/
theorem claim_C2 (m : HMM) (seq : Seq) (c1 c2 : ℚ) (h1 : 0 < c1) (h2 : 0 < c2) :
    viterbi_label m seq c1 = viterbi_label m seq c2 ∧
    viterbi m seq c2 = (viterbi m seq c1).map (scaleGraph (c2 / c1)) := by
  have ht : 0 < c2 / c1 := div_pos h2 h1
  have hc2 : c1 * (c2 / c1) = c2 := by
    field_simp
  have hvs : viterbi m seq c2 = (viterbi m seq c1).map (scaleGraph (c2 / c1)) := by
    conv_lhs => rw [← hc2]
    exact viterbi_scale m seq c1 (c2 / c1) ht
  refine ⟨?_, hvs⟩
  rw [viterbi_label, viterbi_label, hvs]
  cases hv : viterbi m seq c1 with
  | error e => rfl
  | ok g =>
    simp only [Except.map]
    exact (backtraceLoop_scale (c2 / c1) g seq _ _).symm

/-- Claim C2, witness: the model trained on the two-sequence corpus decodes
`x x` identically with scaling constants 1 and 100. -/
theorem claim_C2_witness :
    viterbi_label
        (HMM.mk "START" "STOP" ["A", "B"]
          (emissionProbsOf 1 [("A", [("x", 2)]), ("B", [("y", 1), ("x", 1)])])
          (transitionProbsOf [("START", [("A", 2)]), ("A", [("B", 2)]), ("B", [("STOP", 2)])])
          [("x", 3), ("y", 1)]
          [("START", [("A", 2)]), ("A", [("B", 2)]), ("B", [("STOP", 2)])])
        [("", "START"), ("x", ""), ("x", ""), ("", "STOP")] 1
      = viterbi_label
        (HMM.mk "START" "STOP" ["A", "B"]
          (emissionProbsOf 1 [("A", [("x", 2)]), ("B", [("y", 1), ("x", 1)])])
          (transitionProbsOf [("START", [("A", 2)]), ("A", [("B", 2)]), ("B", [("STOP", 2)])])
          [("x", 3), ("y", 1)]
          [("START", [("A", 2)]), ("A", [("B", 2)]), ("B", [("STOP", 2)])])
        [("", "START"), ("x", ""), ("x", ""), ("", "STOP")] 100 ∧
    viterbi
        (HMM.mk "START" "STOP" ["A", "B"]
          (emissionProbsOf 1 [("A", [("x", 2)]), ("B", [("y", 1), ("x", 1)])])
          (transitionProbsOf [("START", [("A", 2)]), ("A", [("B", 2)]), ("B", [("STOP", 2)])])
          [("x", 3), ("y", 1)]
          [("START", [("A", 2)]), ("A", [("B", 2)]), ("B", [("STOP", 2)])])
        [("", "START"), ("x", ""), ("x", ""), ("", "STOP")] 100
      = (viterbi
          (HMM.mk "START" "STOP" ["A", "B"]
            (emissionProbsOf 1 [("A", [("x", 2)]), ("B", [("y", 1), ("x", 1)])])
            (transitionProbsOf [("START", [("A", 2)]), ("A", [("B", 2)]), ("B", [("STOP", 2)])])
            [("x", 3), ("y", 1)]
            [("START", [("A", 2)]), ("A", [("B", 2)]), ("B", [("STOP", 2)])])
          [("", "START"), ("x", ""), ("x", ""), ("", "STOP")] 1).map
        (scaleGraph (100 / 1)) :=
  claim_C2
    (HMM.mk "START" "STOP" ["A", "B"]
      (emissionProbsOf 1 [("A", [("x", 2)]), ("B", [("y", 1), ("x", 1)])])
      (transitionProbsOf [("START", [("A", 2)]), ("A", [("B", 2)]), ("B", [("STOP", 2)])])
      [("x", 3), ("y", 1)]
      [("START", [("A", 2)]), ("A", [("B", 2)]), ("B", [("STOP", 2)])])
    [("", "START"), ("x", ""), ("x", ""), ("", "STOP")] 1 100
    (by norm_num) (by norm_num)

end HMMSpec
